import Mathlib

/-!
Verification development for the race-based browser-agent execution engine
(`src/main.py`).  The definitions below are shallow embeddings of the Python
functions of that file; each definition's doc comment names the source symbol
and lines it embeds.  Theorems about the claims of the specification follow
the definitions.
-/

set_option maxRecDepth 4096

/-- Model of a Python runtime value as far as the engine manipulates one:
`None`, booleans, integers, floats (modelled as exact rationals; the engine
never computes with them), strings, lists, and string-keyed dicts (modelled
as association lists in insertion order, keys duplicate-free). -/
inductive PyVal where
  | vnone : PyVal
  | vbool : Bool → PyVal
  | vint : Int → PyVal
  | vfloat : Rat → PyVal
  | vstr : String → PyVal
  | vlist : List PyVal → PyVal
  | vdict : List (String × PyVal) → PyVal

/-- First index at which `pat` occurs as a contiguous sublist of `hay`. -/
def findSubIdx (pat : List Char) : List Char → Option Nat
  | [] => if pat.isEmpty then some 0 else none
  | c :: t =>
      if pat.isPrefixOf (c :: t) then some 0
      else (findSubIdx pat t).map (· + 1)

/-- Python substring test `needle in hay` for strings: the needle occurs
somewhere in the haystack. -/
def strContains (hay needle : String) : Bool :=
  (findSubIdx needle.data hay.data).isSome

/-- Python `str.lower()` (ASCII case mapping; the denylist and the
payloads of interest are ASCII). -/
def pyLower (s : String) : String :=
  ⟨s.data.map Char.toLower⟩

/-- Membership test `result in (None, "", [], {})` from `_is_valid`
(src/main.py line 719).  Python `==` holds against those four literals only
for `None`, the empty string, an empty list, and an empty dict: no number or
boolean compares equal to any of them, and non-empty collections differ. -/
def isEmptyLike : PyVal → Bool
  | .vnone => true
  | .vstr s => s == ""
  | .vlist l => l.isEmpty
  | .vdict d => d.isEmpty
  | _ => false

/-- The failure-signature denylist of `_is_valid` (src/main.py lines
723-725). -/
def badSubstrings : List String :=
  ["agent error", "browser_check", "captcha", "wrong captcha",
   "error:", "maintenance", "access denied", "forbidden",
   "please wait", "just a moment", "checking your browser"]

/-- Result Validator `_is_valid` (src/main.py lines 718-737), embedded
branch for branch: reject the four empty/null literals; for a string,
reject when a denylisted phrase occurs in its lowercasing or when it is
shorter than 200 characters; for a dict, accept when some value is a
non-empty list whose first element is a dict, else when some value is a
non-empty list; for a list, accept when non-empty with a dict first
element; anything else is accepted. -/
def _is_valid (result : PyVal) : Bool :=
  if isEmptyLike result then false
  else
    match result with
    | .vstr s =>
        let low := pyLower s
        if badSubstrings.any (fun k => strContains low k) then false
        else if s.length < 200 then false
        else true
    | .vdict d =>
        if d.any (fun kv =>
            match kv.2 with
            | .vlist (x :: _) => match x with | .vdict _ => true | _ => false
            | _ => false) then true
        else d.any (fun kv =>
            match kv.2 with
            | .vlist (_ :: _) => true
            | _ => false)
    | .vlist l =>
        match l with
        | x :: _ => match x with | .vdict _ => true | _ => false
        | [] => false
    | _ => true

mutual
/-- Claim-side notion used by C4: a payload "contains" a failure-signature
substring when some string occurring anywhere inside it (also nested inside
lists and dicts) contains a denylisted phrase, case-insensitively. -/
def containsBadDeep : PyVal → Bool
  | .vstr s => badSubstrings.any (fun k => strContains (pyLower s) k)
  | .vlist l => containsBadDeepList l
  | .vdict d => containsBadDeepDict d
  | _ => false

/-- Auxiliary to `containsBadDeep`: search a list of values. -/
def containsBadDeepList : List PyVal → Bool
  | [] => false
  | x :: xs => containsBadDeep x || containsBadDeepList xs

/-- Auxiliary to `containsBadDeep`: search the values of a dict. -/
def containsBadDeepDict : List (String × PyVal) → Bool
  | [] => false
  | kv :: xs => containsBadDeep kv.2 || containsBadDeepDict xs
end

/-- The field names produced by the direct table scrape
`_js_scrape_procurement` (src/main.py lines 507-515): the "small expected
set" of field names of the specification. -/
def expectedFields : List String :=
  ["issuing_entity", "tender_title", "date_published",
   "submission_deadline", "reference_number", "notice_link"]

/-- Number of expected field names appearing among the keys of a dict
element (used to state the "shares at least two field names" condition of
C8). -/
def sharedFieldCount (x : List (String × PyVal)) : Nat :=
  (expectedFields.filter (fun f => x.any (fun kv => kv.1 == f))).length

/-- Whitespace class of Python's `str.strip()` and of `\s` in the regular
expressions of `_clean_result` (ASCII part: space, tab, newline, carriage
return, vertical tab, form feed). -/
def isPyWs (c : Char) : Bool :=
  c == ' ' || c == '\t' || c == '\n' || c == '\r' ||
  c == Char.ofNat 11 || c == Char.ofNat 12

/-- Python `str.strip()`: remove leading and trailing whitespace. -/
def pyStrip (s : String) : String :=
  ⟨((s.data.dropWhile isPyWs).reverse.dropWhile isPyWs).reverse⟩

/-- Whitespace accepted between tokens by `json.loads` (RFC 8259). -/
def jsonWs (c : Char) : Bool :=
  c == ' ' || c == '\t' || c == '\n' || c == '\r'

/-- Decimal value of a digit run. -/
def digitsToNat (l : List Char) : Nat :=
  l.foldl (fun a c => a * 10 + (c.toNat - 48)) 0

/-- Hexadecimal digit value (for `\uXXXX` escapes). -/
def hexVal (c : Char) : Nat :=
  if c.isDigit then c.toNat - 48
  else if 'a' ≤ c ∧ c ≤ 'f' then c.toNat - 87
  else if 'A' ≤ c ∧ c ≤ 'F' then c.toNat - 55
  else 0

/-- JSON string body parser (the part of `json.loads` after an opening
quote): consume up to the closing quote, decoding the JSON escape
sequences.  Surrogate-pair recombination of `\uXXXX` escapes is not
modelled (no theorem below evaluates a parse on astral characters). -/
def jsonStringBody (acc : List Char) : List Char → Option (String × List Char)
  | [] => none
  | '"' :: r => some (⟨acc.reverse⟩, r)
  | '\\' :: e :: r =>
      if e == '"' then jsonStringBody ('"' :: acc) r
      else if e == '\\' then jsonStringBody ('\\' :: acc) r
      else if e == '/' then jsonStringBody ('/' :: acc) r
      else if e == 'b' then jsonStringBody (Char.ofNat 8 :: acc) r
      else if e == 'f' then jsonStringBody (Char.ofNat 12 :: acc) r
      else if e == 'n' then jsonStringBody ('\n' :: acc) r
      else if e == 'r' then jsonStringBody ('\r' :: acc) r
      else if e == 't' then jsonStringBody ('\t' :: acc) r
      else if e == 'u' then
        match r with
        | h1 :: h2 :: h3 :: h4 :: r2 =>
            let code := ((hexVal h1 * 16 + hexVal h2) * 16 + hexVal h3) * 16 + hexVal h4
            jsonStringBody (Char.ofNat code :: acc) r2
        | _ => none
      else none
  | c :: r => jsonStringBody (c :: acc) r

/-- Exponent part of a JSON number: returns the exponent, the rest, and
whether an exponent was present. -/
def jsonExpPart (cs : List Char) : Option (Int × List Char × Bool) :=
  match cs with
  | c :: r =>
      if c == 'e' || c == 'E' then
        let (sgn, r1) : Int × List Char :=
          match r with
          | '+' :: t => (1, t)
          | '-' :: t => (-1, t)
          | _ => (1, r)
        let es := r1.takeWhile Char.isDigit
        if es.isEmpty then none
        else some (sgn * (digitsToNat es : Int), (r1.drop es.length, true))
      else some (0, (cs, false))
  | [] => some (0, ([], false))

/-- JSON number parser: an integer literal yields a Python `int`, a literal
with a fraction or exponent yields a Python `float` (modelled exactly as a
rational). -/
def jsonNumber (cs : List Char) : Option (PyVal × List Char) :=
  let (neg, cs1) : Bool × List Char :=
    match cs with
    | '-' :: r => (true, r)
    | _ => (false, cs)
  let ds := cs1.takeWhile Char.isDigit
  if ds.isEmpty then none
  else if ds.length > 1 && ds.head? == some '0' then none
  else
    let cs2 := cs1.drop ds.length
    let ip : Nat := digitsToNat ds
    let (fracDs, cs3, hasFrac) : List Char × List Char × Bool :=
      match cs2 with
      | '.' :: r => (r.takeWhile Char.isDigit, r.drop (r.takeWhile Char.isDigit).length, true)
      | _ => ([], cs2, false)
    if hasFrac ∧ fracDs.isEmpty then none
    else
      match jsonExpPart cs3 with
      | none => none
      | some (e, cs4, hasExp) =>
          if ¬ hasFrac ∧ ¬ hasExp then
            some (.vint (if neg then -(ip : Int) else (ip : Int)), cs4)
          else
            let mant : Rat := (ip : Rat) + (digitsToNat fracDs : Rat) / ((10 : Rat) ^ fracDs.length)
            let v : Rat := (if neg then -mant else mant) * (10 : Rat) ^ e
            some (.vfloat v, cs4)

mutual
/-- Recursive value parser of `json.loads` (fuel-indexed; the top-level
wrapper supplies fuel exceeding the input length, which bounds the nesting
depth).  Handles `null`, `true`, `false`, strings, numbers, arrays and
objects.  The non-standard `NaN`/`Infinity` literals Python additionally
accepts are not modelled (floats are exact rationals here). -/
def jsonValue : Nat → List Char → Option (PyVal × List Char)
  | 0, _ => none
  | fuel + 1, cs =>
      let cs := cs.dropWhile jsonWs
      match cs with
      | [] => none
      | 'n' :: 'u' :: 'l' :: 'l' :: r => some (.vnone, r)
      | 't' :: 'r' :: 'u' :: 'e' :: r => some (.vbool true, r)
      | 'f' :: 'a' :: 'l' :: 's' :: 'e' :: r => some (.vbool false, r)
      | '"' :: r => (jsonStringBody [] r).map (fun p => (.vstr p.1, p.2))
      | '[' :: r =>
          let r1 := r.dropWhile jsonWs
          match r1 with
          | ']' :: r2 => some (.vlist [], r2)
          | _ => (jsonElems fuel r).map (fun p => (.vlist p.1, p.2))
      | '{' :: r =>
          let r1 := r.dropWhile jsonWs
          match r1 with
          | '}' :: r2 => some (.vdict [], r2)
          | _ => (jsonMembers fuel r).map (fun p => (.vdict p.1, p.2))
      | c :: _ =>
          if c == '-' || c.isDigit then jsonNumber cs else none

/-- Comma-separated array elements of `json.loads`. -/
def jsonElems : Nat → List Char → Option (List PyVal × List Char)
  | 0, _ => none
  | fuel + 1, cs =>
      match jsonValue fuel cs with
      | none => none
      | some (v, r) =>
          let r1 := r.dropWhile jsonWs
          match r1 with
          | ',' :: r2 => (jsonElems fuel r2).map (fun p => (v :: p.1, p.2))
          | ']' :: r2 => some ([v], r2)
          | _ => none

/-- Comma-separated object members of `json.loads`. -/
def jsonMembers : Nat → List Char → Option (List (String × PyVal) × List Char)
  | 0, _ => none
  | fuel + 1, cs =>
      let cs := cs.dropWhile jsonWs
      match cs with
      | '"' :: r =>
          match jsonStringBody [] r with
          | none => none
          | some (k, r1) =>
              let r2 := r1.dropWhile jsonWs
              match r2 with
              | ':' :: r3 =>
                  match jsonValue fuel r3 with
                  | none => none
                  | some (v, r4) =>
                      let r5 := r4.dropWhile jsonWs
                      match r5 with
                      | ',' :: r6 => (jsonMembers fuel r6).map (fun p => ((k, v) :: p.1, p.2))
                      | '}' :: r6 => some ([(k, v)], r6)
                      | _ => none
              | _ => none
      | _ => none
end

/-- `json.loads`: parse a complete JSON document, allowing surrounding
whitespace, rejecting trailing garbage; `none` models a raised
`JSONDecodeError`. -/
def json_loads (s : String) : Option PyVal :=
  match jsonValue (s.data.length + 1) s.data with
  | some (v, rest) => if (rest.dropWhile jsonWs).isEmpty then some v else none
  | none => none


/-- The search `re.search(r'<r>\s*(.*?)\s*</r>', text, re.DOTALL)` of
`_clean_result` (src/main.py line 693), as used there: both consumers
immediately apply `.strip()` to group 1, so the `\s*` boundaries of the
pattern are immaterial and the match amounts to the text between the first
`<r>` and the first `</r>` after it (the pattern matches at the earliest
start position, and a `</r>` following a later `<r>` also follows the
first). -/
def extractTagR (s : String) : Option String :=
  match findSubIdx "<r>".data s.data with
  | none => none
  | some i =>
      let after := s.data.drop (i + 3)
      match findSubIdx "</r>".data after with
      | none => none
      | some j => some ⟨after.take j⟩

/-- Index of the first occurrence of `close` whose continuation satisfies
`check`: the semantics of a lazy `.*?` followed by the literal `close` and
a required continuation, under DOTALL. -/
def lazyCloseIdx (close : Char) (check : List Char → Bool) : List Char → Option Nat
  | [] => none
  | c :: rest =>
      if c == close && check rest then some 0
      else (lazyCloseIdx close check rest).map (· + 1)

/-- Continuation check `\s*```` ``` ```` used by the fenced-block pattern. -/
def fenceSuffixOk (r : List Char) : Bool :=
  "```".data.isPrefixOf (r.dropWhile isPyWs)

/-- Body of the fenced-block pattern after a matched ```` ``` ````: an
optional `json` tag (tried first, as the greedy `(?:json)?` does), then
`\s*`, then either `\{.*?\}` or `\[.*?\]` (lazy, DOTALL), then `\s*` and a
closing fence.  Returns group 1 (the braced or bracketed part). -/
def fenceGroupAt (cs : List Char) : Option (List Char) :=
  let tryFrom : List Char → Option (List Char) := fun c =>
    let body := c.dropWhile isPyWs
    match body with
    | '{' :: r =>
        (lazyCloseIdx '}' fenceSuffixOk r).map (fun j => '{' :: (r.take j ++ ['}']))
    | '[' :: r =>
        (lazyCloseIdx ']' fenceSuffixOk r).map (fun j => '[' :: (r.take j ++ [']']))
    | _ => none
  match (if "json".data.isPrefixOf cs then tryFrom (cs.drop 4) else none) with
  | some g => some g
  | none => tryFrom cs

/-- The search `re.search(r'```(?:json)?\s*(\{.*?\}|\[.*?\])\s*```', text,
re.DOTALL)` of `_clean_result` (src/main.py line 699): try every start
position left to right; at a position opening with ```` ``` ```` attempt
the body match. -/
def fenceScan : List Char → Option (List Char)
  | [] => none
  | c :: t =>
      if "```".data.isPrefixOf (c :: t) then
        match fenceGroupAt ((c :: t).drop 3) with
        | some g => some g
        | none => fenceScan t
      else fenceScan t

/-- The search `re.search(r'(\[\s*\{.*?\}\s*\])', text, re.DOTALL)` of
`_clean_result` (src/main.py line 709): the earliest `[` followed (after
whitespace) by `{`, a lazy body, the first `}` whose continuation is
whitespace then `]`; group 1 runs from the `[` to that `]` inclusive. -/
def pat1Scan : List Char → Option (List Char)
  | [] => none
  | c :: t =>
      if c == '[' then
        let r := t.dropWhile isPyWs
        let wsA := t.length - r.length
        match r with
        | '{' :: r2 =>
            match lazyCloseIdx '}'
                (fun rest => (rest.dropWhile isPyWs).head? == some ']') r2 with
            | some j =>
                let rest := r2.drop (j + 1)
                let wsB := rest.length - (rest.dropWhile isPyWs).length
                some ((c :: t).take (1 + wsA + 1 + (j + 1) + wsB + 1))
            | none => pat1Scan t
        | _ => pat1Scan t
      else pat1Scan t

/-- The search `re.search(r'(\{.*?\})', text, re.DOTALL)` of
`_clean_result` (src/main.py line 709): the earliest `{` with any later
`}`; the lazy body ends at the first `}`. -/
def pat2Scan : List Char → Option (List Char)
  | [] => none
  | c :: t =>
      if c == '{' then
        match lazyCloseIdx '}' (fun _ => true) t with
        | some j => some ((c :: t).take (j + 2))
        | none => pat2Scan t
      else pat2Scan t

/-- The search `re.search(r'(\[.*?\])', text, re.DOTALL)` of
`_clean_result` (src/main.py line 709): the earliest `[` with any later
`]`. -/
def pat3Scan : List Char → Option (List Char)
  | [] => none
  | c :: t =>
      if c == '[' then
        match lazyCloseIdx ']' (fun _ => true) t with
        | some j => some ((c :: t).take (j + 2))
        | none => pat3Scan t
      else pat3Scan t

/-- Tail of `_clean_result` after the `<r>` tag handling (src/main.py lines
699-716): try the fenced block (parse failure falls through, as the
`except` there does), then a bare `json.loads` of the whole text, then the
three bracket patterns in order, each with a best-effort parse; finally
return the text itself. -/
def cleanResultTail (text : String) : PyVal :=
  match (fenceScan text.data).bind (fun g => json_loads (pyStrip ⟨g⟩)) with
  | some v => v
  | none =>
  match json_loads text with
  | some v => v
  | none =>
  match (pat1Scan text.data).bind (fun g => json_loads ⟨g⟩) with
  | some v => v
  | none =>
  match (pat2Scan text.data).bind (fun g => json_loads ⟨g⟩) with
  | some v => v
  | none =>
  match (pat3Scan text.data).bind (fun g => json_loads ⟨g⟩) with
  | some v => v
  | none => .vstr text

/-- `_clean_result` (src/main.py lines 689-716): empty text is returned as
is; otherwise the text is stripped, an `<r>…</r>` block is extracted and
parsed if present (on parse failure the inner text replaces the text), and
the remaining fallbacks of `cleanResultTail` run. -/
def _clean_result (text : String) : PyVal :=
  if text == "" then .vstr text
  else
    let text1 := pyStrip text
    match extractTagR text1 with
    | some inner =>
        let inner := pyStrip inner
        match json_loads inner with
        | some v => v
        | none => cleanResultTail inner
    | none => cleanResultTail text1

/-- One entry of `history.action_results()` (or of a step's `result` list)
as the extraction code reads it: the `is_done` flag and the
`extracted_content` text (`""` models both an empty string and `None`,
which the code coalesces with `or ""`). -/
structure ActionRes where
  is_done : Bool
  extracted_content : String

/-- The parts of the automation engine's history object read by the
extraction code of `_run_worker` (src/main.py lines 922-957):
`final_result()` (`none` models an absent value or a raised exception,
which the surrounding `try` swallows), `action_results()`, and the
per-step `result` lists of `history.history`. -/
structure AgentHistory where
  finalResult : Option String
  actionResults : List ActionRes
  stepResults : List (List ActionRes)

/-- Extraction pass 1 (src/main.py lines 923-928): `history.final_result()`
if truthy. -/
def extractPass1 (h : AgentHistory) : String :=
  match h.finalResult with
  | some s => s
  | none => ""

/-- Extraction pass 2 (src/main.py lines 929-936): walk
`action_results()` backwards and take `extracted_content` of the first
entry with `is_done` set (the loop breaks there even when that content is
empty). -/
def extractPass2 (h : AgentHistory) : String :=
  match h.actionResults.reverse.find? (fun a => a.is_done) with
  | some a => a.extracted_content
  | none => ""

/-- Content of the last `is_done` entry of one step's `result` list
(src/main.py lines 940-943). -/
def lastDoneContent (rs : List ActionRes) : String :=
  match rs.reverse.find? (fun a => a.is_done) with
  | some a => a.extracted_content
  | none => ""

/-- Extraction pass 3 (src/main.py lines 937-946): walk the steps
backwards; the inner loop overwrites `rt` with the step's last `is_done`
content, and the outer loop stops only when `rt` is non-empty, so an empty
content keeps searching earlier steps. -/
def extractPass3 (h : AgentHistory) : String :=
  go h.stepResults.reverse
  where
    go : List (List ActionRes) → String
      | [] => ""
      | rs :: rest =>
          let c := lastDoneContent rs
          if c ≠ "" then c else go rest

/-- The action-description prefixes skipped by pass 4 (src/main.py line
949). -/
def skipPrefixes : List String :=
  ["Clicked", "Typed", "Waited", "Scrolled", "Searched", "Navigated"]

/-- Extraction pass 4 (src/main.py lines 948-957): walk
`action_results()` backwards and take the first non-empty
`extracted_content` that does not start with an action-description
prefix. -/
def extractPass4 (h : AgentHistory) : String :=
  match h.actionResults.reverse.find?
      (fun a => a.extracted_content ≠ "" ∧
        ¬ skipPrefixes.any (fun s => a.extracted_content.startsWith s)) with
  | some a => a.extracted_content
  | none => ""

/-- The chained `if not rt:` extraction of `_run_worker` (src/main.py
lines 922-957): each pass runs only while `rt` is still empty. -/
def extractText (h : AgentHistory) : String :=
  let rt := extractPass1 h
  let rt := if rt = "" then extractPass2 h else rt
  let rt := if rt = "" then extractPass3 h else rt
  let rt := if rt = "" then extractPass4 h else rt
  rt

/-- First non-empty element of a list of strings (`""` when all are
empty): the specification's "first pass yielding non-empty content
wins". -/
def firstNonEmpty : List String → String
  | [] => ""
  | s :: rest => if s ≠ "" then s else firstNonEmpty rest

/-- Environment of one extraction run: the engine history, whether
`current_page_ref` holds a page (src/main.py line 962), and what
`_js_scrape_procurement` would return on that page (`none` models both a
raised error and an empty scrape, which the function folds into `None`;
src/main.py lines 520-526). -/
structure ExtractionRun where
  history : AgentHistory
  pagePresent : Bool
  jsData : Option (List PyVal)

/-- Result-extraction pipeline of `_run_worker` (src/main.py lines
922-970): clean the text extracted by the four history passes, and when
the cleaned value fails `_is_valid` and a page reference exists, attempt
the direct JS table scrape, replacing the cleaned value only when the
scrape yields a truthy value.  Returns the final value and whether the
scrape pass was attempted. -/
def extractionPipeline (e : ExtractionRun) : PyVal × Bool :=
  let rt := extractText e.history
  let cleaned := _clean_result rt
  if ¬ (_is_valid cleaned = true) ∧ e.pagePresent = true then
    match e.jsData with
    | some rows => (if rows.isEmpty then cleaned else .vlist rows, true)
    | none => (cleaned, true)
  else (cleaned, false)

/-- How the guarded block of `_run_worker` (src/main.py lines 902-1001)
ends. -/
inductive BodyOutcome where
  | claimed
  | lostClaim
  | invalidResult
  | timedOut
  | cancelled
  | errored
deriving DecidableEq

/-- Control-flow paths through `_run_worker` (src/main.py lines 808-1006):
the working directory is created at line 818 before the semaphore scope at
line 901; a worker can fail in the setup between those points (the
un-guarded `build_llm` call at line 821), be cancelled while waiting on
`async with _browser_semaphore` at line 901, or enter the guarded
`try`/`except`/`finally` block. -/
inductive WorkerPath where
  | setupFailure
  | acquireCancelled
  | body (o : BodyOutcome)
deriving DecidableEq

/-- Observable resource effects of one `_run_worker` execution. -/
structure WorkerTrace where
  folderCreated : Bool
  slotAcquired : Bool
  slotReleased : Bool
  folderRemoved : Bool
  enqueued : Bool
deriving DecidableEq

/-- Resource accounting of `_run_worker` per path: the folder is created
unconditionally at line 818; the semaphore slot is held exactly for the
`async with` scope (released on every exit of the block, including
timeout, cancellation and unexpected exceptions); the `finally` at lines
1002-1006 removes the folder whenever the guarded block was entered; an
outcome is enqueued (line 992) only on the claimed path.  A worker that
fails in setup or is cancelled while still waiting for the slot never
enters the guarded block, so neither the release (nothing was acquired)
nor the folder removal runs. -/
def runWorkerEffects : WorkerPath → WorkerTrace
  | .setupFailure => ⟨true, false, false, false, false⟩
  | .acquireCancelled => ⟨true, false, false, false, false⟩
  | .body o => ⟨true, true, true, true, o = .claimed⟩

/-- Phase of one worker inside a round, as observed at the suspension
points of `_run_worker` (src/main.py lines 901-1006): running the attempt;
holding a validator-accepted payload just before the outside-the-lock flag
check `not cancel_event.is_set()` (line 972); waiting on
`async with winner_lock` (line 973); inside the locked region (lines
974-976); past a successful claim and working through the
artifact-and-enqueue stretch (lines 978-992); or finished, recording
whether the worker had won the claim, whether an outcome was enqueued,
and whether the payload had been validator-accepted. -/
inductive WPhase where
  | working
  | preCheck
  | awaitingLock
  | inLock
  | enqueuing
  | done (claimed reported validated : Bool)
deriving DecidableEq

/-- Shared state of one `_race` invocation (src/main.py lines 1011-1040):
the per-worker phases, the `cancel` event, the `winner_lock` owner, and
the outcome queue `q` (as the list of worker indices that have enqueued a
WorkerOutcome). -/
structure RaceState (n : Nat) where
  phase : Fin n → WPhase
  flag : Bool
  lockHolder : Option (Fin n)
  queue : List (Fin n)

/-- A worker that has won the claim (it set the flag inside the lock):
still in the post-claim stretch, or finished with the claim recorded —
whether or not it managed to enqueue its outcome. -/
def isWinner : WPhase → Bool
  | .enqueuing => true
  | .done c _ _ => c
  | _ => false

/-- The worker's coroutine has returned. -/
def isDonePhase : WPhase → Bool
  | .done _ _ _ => true
  | _ => false

/-- The worker finished and its payload had been validator-accepted. -/
def isValidatedDone : WPhase → Bool
  | .done _ _ v => v
  | _ => false

/-- The worker won the claim but finished without enqueueing an outcome:
the post-claim stretch raised (see `RaceStep.enqueueFail`). -/
def postClaimFailed : WPhase → Bool
  | .done true false _ => true
  | _ => false

/-- Interleaving semantics of one round (src/main.py `_run_worker` lines
972-1001 and `_race` lines 1011-1040), one atomic step per line of the
cooperative schedule:

* `finishNoClaim`: a worker ends without a validator-accepted payload —
  invalid result, hard `asyncio.wait_for` timeout, cancellation during the
  attempt, or a swallowed unexpected exception (lines 993-1001);
* `finishValid`: the attempt completes and `_is_valid` accepts the cleaned
  payload (line 972, left conjunct);
* `preCheckPass`: the outside-the-lock flag check sees the flag unset
  (line 972, right conjunct);
* `noClaimFlagged`: a validated worker stops before claiming because the
  flag is set — the pre-check fails, or the coordinator (which sets the
  flag before cancelling, lines 1035-1038) cancels it at a suspension
  point before or at the lock acquisition;
* `acquireLock`: `async with winner_lock` grants the free lock (line 973);
* `recheckFail`: the re-check inside the lock sees the flag set and the
  worker returns, releasing the lock (lines 974-975);
* `claimWin`: the re-check sees the flag unset and the worker sets it,
  leaving the locked region (line 976) — the locked region contains no
  awaits, so check and set are modelled as guarded atomic steps under the
  lock;
* `enqueueOutcome`: the winner completes the artifact stretch and puts
  its outcome on the queue (line 992);
* `enqueueFail`: the stretch between the flag set (line 976) and the
  queue put (line 992) is not fully exception-guarded — the screenshot
  dump and the video call are individually wrapped, but the bare
  `_dump_json_screenshots` call at line 980 raises on conversation JSON
  of an unexpected shape (the `.get` calls at lines 608 and 610), and
  `_ensure_frames`' fallback write at lines 569-570 is also bare; such an
  exception is caught by the worker's `except Exception` at line 1000, so
  a claimed worker can finish with the flag set and no outcome enqueued;
* `coordSetFlag`: the coordinator's `finally` sets the flag (line 1035) —
  it runs after the wait loop, which only ends once every task completed
  or a winner was dequeued (in which case the flag is already set), hence
  the guard. -/
inductive RaceStep {n : Nat} : RaceState n → RaceState n → Prop where
  | finishNoClaim (s : RaceState n) (i : Fin n) (h : s.phase i = .working) :
      RaceStep s { s with phase := Function.update s.phase i (.done false false false) }
  | finishValid (s : RaceState n) (i : Fin n) (h : s.phase i = .working) :
      RaceStep s { s with phase := Function.update s.phase i .preCheck }
  | preCheckPass (s : RaceState n) (i : Fin n) (h : s.phase i = .preCheck)
      (hf : s.flag = false) :
      RaceStep s { s with phase := Function.update s.phase i .awaitingLock }
  | noClaimFlagged (s : RaceState n) (i : Fin n)
      (h : s.phase i = .preCheck ∨ s.phase i = .awaitingLock) (hf : s.flag = true) :
      RaceStep s { s with phase := Function.update s.phase i (.done false false true) }
  | acquireLock (s : RaceState n) (i : Fin n) (h : s.phase i = .awaitingLock)
      (hl : s.lockHolder = none) :
      RaceStep s { s with phase := Function.update s.phase i .inLock,
                          lockHolder := some i }
  | recheckFail (s : RaceState n) (i : Fin n) (h : s.phase i = .inLock)
      (hl : s.lockHolder = some i) (hf : s.flag = true) :
      RaceStep s { s with phase := Function.update s.phase i (.done false false true),
                          lockHolder := none }
  | claimWin (s : RaceState n) (i : Fin n) (h : s.phase i = .inLock)
      (hl : s.lockHolder = some i) (hf : s.flag = false) :
      RaceStep s { s with phase := Function.update s.phase i .enqueuing,
                          lockHolder := none, flag := true }
  | enqueueOutcome (s : RaceState n) (i : Fin n) (h : s.phase i = .enqueuing) :
      RaceStep s { s with phase := Function.update s.phase i (.done true true true),
                          queue := s.queue ++ [i] }
  | enqueueFail (s : RaceState n) (i : Fin n) (h : s.phase i = .enqueuing) :
      RaceStep s { s with phase := Function.update s.phase i (.done true false true) }
  | coordSetFlag (s : RaceState n)
      (h : (∀ i, isDonePhase (s.phase i) = true) ∨ s.flag = true) :
      RaceStep s { s with flag := true }

/-- Initial state of a round (src/main.py lines 1012-1014): all workers
running, flag unset, lock free, queue empty. -/
def initRace (n : Nat) : RaceState n :=
  ⟨fun _ => .working, false, none, []⟩

/-- States a round can actually be in. -/
def raceReachable {n : Nat} (s : RaceState n) : Prop :=
  Relation.ReflTransGen RaceStep (initRace n) s

/-- Inductive invariant of the round: no claim-winner exists while the
flag is unset; claim-winners are pairwise equal; queued workers are
exactly the finished reporters, without duplicates; a set flag with an
unfinished worker, and any validated worker that finished without even
claiming, certify an existing claim-winner. -/
structure RaceInv {n : Nat} (s : RaceState n) : Prop where
  flagFree : s.flag = false → ∀ i, isWinner (s.phase i) = false
  uniqueWin : ∀ i j, isWinner (s.phase i) = true → isWinner (s.phase j) = true → i = j
  queueDone : ∀ i, i ∈ s.queue → s.phase i = .done true true true
  queueNodup : s.queue.Nodup
  repInQueue : ∀ i c v, s.phase i = .done c true v → c = true ∧ v = true ∧ i ∈ s.queue
  flagLive : s.flag = true → (∃ i, isDonePhase (s.phase i) = false) →
    ∃ j, isWinner (s.phase j) = true
  failVal : (∃ i, s.phase i = .done false false true) → ∃ j, isWinner (s.phase j) = true

theorem raceInv_init (n : Nat) : RaceInv (initRace n) := by
  constructor <;> simp [initRace, isWinner, isDonePhase]

attribute [local simp] Function.update_same

theorem isWinner_done_iff (c r v : Bool) : isWinner (.done c r v) = c := rfl

theorem isWinner_simple :
    isWinner .working = false ∧ isWinner .preCheck = false ∧
    isWinner .awaitingLock = false ∧ isWinner .inLock = false ∧
    isWinner .enqueuing = true := by
  exact ⟨rfl, rfl, rfl, rfl, rfl⟩

theorem raceInv_update_nonwinner {n : Nat} {s : RaceState n} (hi : RaceInv s) (i : Fin n)
    (p1 : WPhase) (flag' : Bool) (lock' : Option (Fin n))
    (hp0w : isWinner (s.phase i) = false) (hp0d : isDonePhase (s.phase i) = false)
    (hp1 : isWinner p1 = false) (hp1r : ∀ c v, p1 ≠ .done c true v)
    (hflag : flag' = s.flag)
    (hfv : p1 = .done false false true → s.flag = true) :
    RaceInv ⟨Function.update s.phase i p1, flag', lock', s.queue⟩ := by
  obtain ⟨hFree, hUniq, hQD, hND, hRQ, hFL, hFV⟩ := hi
  have hp0q : ∀ r v, s.phase i ≠ .done true r v := by
    intro r v he
    rw [he, isWinner_done_iff] at hp0w
    exact Bool.noConfusion hp0w
  refine ⟨?_, ?_, ?_, hND, ?_, ?_, ?_⟩
  · intro hf j
    dsimp only at hf ⊢
    rw [hflag] at hf
    by_cases hj : j = i
    · subst hj; rw [Function.update_same]; exact hp1
    · rw [Function.update_noteq hj]; exact hFree hf j
  · intro j k hj hk
    dsimp only at hj hk
    by_cases hjx : j = i
    · subst hjx; rw [Function.update_same] at hj
      rw [hp1] at hj; exact Bool.noConfusion hj
    · by_cases hkx : k = i
      · subst hkx; rw [Function.update_same] at hk
        rw [hp1] at hk; exact Bool.noConfusion hk
      · rw [Function.update_noteq hjx] at hj
        rw [Function.update_noteq hkx] at hk
        exact hUniq j k hj hk
  · intro j hjq
    dsimp only at hjq ⊢
    have hq := hQD j hjq
    have hji : j ≠ i := by intro e; rw [e] at hq; exact hp0q true true hq
    rw [Function.update_noteq hji]; exact hq
  · intro j c v hj
    dsimp only at hj ⊢
    by_cases hjx : j = i
    · subst hjx; rw [Function.update_same] at hj
      exact absurd hj (hp1r c v)
    · rw [Function.update_noteq hjx] at hj; exact hRQ j c v hj
  · intro hf _
    dsimp only at hf ⊢
    rw [hflag] at hf
    obtain ⟨m, hm⟩ := hFL hf ⟨i, hp0d⟩
    have hmi : m ≠ i := by
      intro e; rw [e, hp0w] at hm; exact Bool.noConfusion hm
    exact ⟨m, by rw [Function.update_noteq hmi]; exact hm⟩
  · intro hx
    dsimp only at hx ⊢
    obtain ⟨j, hj⟩ := hx
    by_cases hjx : j = i
    · subst hjx; rw [Function.update_same] at hj
      obtain ⟨m, hm⟩ := hFL (hfv hj) ⟨j, hp0d⟩
      have hmi : m ≠ j := by
        intro e; rw [e, hp0w] at hm; exact Bool.noConfusion hm
      exact ⟨m, by rw [Function.update_noteq hmi]; exact hm⟩
    · rw [Function.update_noteq hjx] at hj
      obtain ⟨m, hm⟩ := hFV ⟨j, hj⟩
      have hmi : m ≠ i := by
        intro e; rw [e, hp0w] at hm; exact Bool.noConfusion hm
      exact ⟨m, by rw [Function.update_noteq hmi]; exact hm⟩

theorem raceInv_step {n : Nat} {s t : RaceState n} (hi : RaceInv s) (hs : RaceStep s t) :
    RaceInv t := by
  cases hs with
  | finishNoClaim i h =>
    exact raceInv_update_nonwinner hi i _ _ _
      (by rw [h]; rfl) (by rw [h]; rfl) rfl
      (by intro c v he; exact Bool.noConfusion ((WPhase.done.injEq _ _ _ _ _ _).mp he).2.1)
      rfl
      (by intro he; exact absurd ((WPhase.done.injEq _ _ _ _ _ _).mp he).2.2 (by simp))
  | finishValid i h =>
    exact raceInv_update_nonwinner hi i _ _ _
      (by rw [h]; rfl) (by rw [h]; rfl) rfl
      (by intro c v he; exact WPhase.noConfusion he)
      rfl
      (by intro he; exact WPhase.noConfusion he)
  | preCheckPass i h hf =>
    exact raceInv_update_nonwinner hi i _ _ _
      (by rw [h]; rfl) (by rw [h]; rfl) rfl
      (by intro c v he; exact WPhase.noConfusion he)
      rfl
      (by intro he; exact WPhase.noConfusion he)
  | noClaimFlagged i h hf =>
    refine raceInv_update_nonwinner hi i _ _ _ ?_ ?_ rfl
      (by intro c v he; exact Bool.noConfusion ((WPhase.done.injEq _ _ _ _ _ _).mp he).2.1)
      rfl (fun _ => hf)
    · cases h with
      | inl h2 => rw [h2]; rfl
      | inr h2 => rw [h2]; rfl
    · cases h with
      | inl h2 => rw [h2]; rfl
      | inr h2 => rw [h2]; rfl
  | acquireLock i h hl =>
    exact raceInv_update_nonwinner hi i _ _ _
      (by rw [h]; rfl) (by rw [h]; rfl) rfl
      (by intro c v he; exact WPhase.noConfusion he)
      rfl
      (by intro he; exact WPhase.noConfusion he)
  | recheckFail i h hl hf =>
    exact raceInv_update_nonwinner hi i _ _ _
      (by rw [h]; rfl) (by rw [h]; rfl) rfl
      (by intro c v he; exact Bool.noConfusion ((WPhase.done.injEq _ _ _ _ _ _).mp he).2.1)
      rfl (fun _ => hf)
  | claimWin i h hl hf =>
    obtain ⟨hFree, hUniq, hQD, hND, hRQ, hFL, hFV⟩ := hi
    refine ⟨?_, ?_, ?_, hND, ?_, ?_, ?_⟩
    · intro hf2
      dsimp only at hf2
      exact Bool.noConfusion hf2
    · intro j k hj hk
      dsimp only at hj hk
      by_cases hjx : j = i
      · subst hjx
        by_cases hkx : k = j
        · rw [hkx]
        · rw [Function.update_noteq hkx] at hk
          have := hFree hf k
          rw [hk] at this; exact Bool.noConfusion this
      · rw [Function.update_noteq hjx] at hj
        have := hFree hf j
        rw [hj] at this; exact Bool.noConfusion this
    · intro j hjq
      dsimp only at hjq ⊢
      have hq := hQD j hjq
      have := hFree hf j
      rw [hq, isWinner_done_iff] at this
      exact Bool.noConfusion this
    · intro j c v hj
      dsimp only at hj ⊢
      by_cases hjx : j = i
      · subst hjx; rw [Function.update_same] at hj
        exact WPhase.noConfusion hj
      · rw [Function.update_noteq hjx] at hj; exact hRQ j c v hj
    · intro _ _
      exact ⟨i, by dsimp only; rw [Function.update_same]; rfl⟩
    · intro _
      exact ⟨i, by dsimp only; rw [Function.update_same]; rfl⟩
  | enqueueOutcome i h =>
    obtain ⟨hFree, hUniq, hQD, hND, hRQ, hFL, hFV⟩ := hi
    have hwi : isWinner (s.phase i) = true := by rw [h]; rfl
    have hfTrue : s.flag = true := by
      cases hflag : s.flag with
      | false =>
          have := hFree hflag i
          rw [this] at hwi; exact Bool.noConfusion hwi
      | true => rfl
    have hiNotQ : i ∉ s.queue := by
      intro hmem
      have := hQD i hmem
      rw [this] at h; exact WPhase.noConfusion h
    refine ⟨?_, ?_, ?_, ?_, ?_, ?_, ?_⟩
    · intro hf2
      dsimp only at hf2
      rw [hfTrue] at hf2
      exact Bool.noConfusion hf2
    · intro j k hj hk
      dsimp only at hj hk
      by_cases hjx : j = i
      · subst hjx
        by_cases hkx : k = j
        · rw [hkx]
        · rw [Function.update_noteq hkx] at hk
          exact (hUniq k j hk hwi).symm
      · rw [Function.update_noteq hjx] at hj
        by_cases hkx : k = i
        · subst hkx; exact hUniq j k hj hwi
        · rw [Function.update_noteq hkx] at hk
          exact hUniq j k hj hk
    · intro j hjq
      dsimp only at hjq ⊢
      rw [List.mem_append, List.mem_singleton] at hjq
      cases hjq with
      | inl hjq =>
          have hq := hQD j hjq
          have hji : j ≠ i := by intro e; rw [e, h] at hq; exact WPhase.noConfusion hq
          rw [Function.update_noteq hji]; exact hq
      | inr hjq =>
          subst hjq; rw [Function.update_same]
    · dsimp only
      rw [List.nodup_append]
      refine ⟨hND, List.nodup_singleton i, ?_⟩
      intro a ha hb
      rw [List.mem_singleton] at hb
      subst hb
      exact hiNotQ ha
    · intro j c v hj
      dsimp only at hj ⊢
      by_cases hjx : j = i
      · subst hjx; rw [Function.update_same] at hj
        have hinj := (WPhase.done.injEq _ _ _ _ _ _).mp hj
        refine ⟨hinj.1.symm, hinj.2.2.symm, ?_⟩
        rw [List.mem_append, List.mem_singleton]
        right; rfl
      · rw [Function.update_noteq hjx] at hj
        obtain ⟨hc, hv, hmem⟩ := hRQ j c v hj
        refine ⟨hc, hv, ?_⟩
        rw [List.mem_append]; left; exact hmem
    · intro _ _
      exact ⟨i, by dsimp only; rw [Function.update_same]; rfl⟩
    · intro _
      exact ⟨i, by dsimp only; rw [Function.update_same]; rfl⟩
  | enqueueFail i h =>
    obtain ⟨hFree, hUniq, hQD, hND, hRQ, hFL, hFV⟩ := hi
    have hwi : isWinner (s.phase i) = true := by rw [h]; rfl
    have hfTrue : s.flag = true := by
      cases hflag : s.flag with
      | false =>
          have := hFree hflag i
          rw [this] at hwi; exact Bool.noConfusion hwi
      | true => rfl
    refine ⟨?_, ?_, ?_, hND, ?_, ?_, ?_⟩
    · intro hf2
      dsimp only at hf2
      rw [hfTrue] at hf2
      exact Bool.noConfusion hf2
    · intro j k hj hk
      dsimp only at hj hk
      by_cases hjx : j = i
      · subst hjx
        by_cases hkx : k = j
        · rw [hkx]
        · rw [Function.update_noteq hkx] at hk
          exact (hUniq k j hk hwi).symm
      · rw [Function.update_noteq hjx] at hj
        by_cases hkx : k = i
        · subst hkx; exact hUniq j k hj hwi
        · rw [Function.update_noteq hkx] at hk
          exact hUniq j k hj hk
    · intro j hjq
      dsimp only at hjq ⊢
      have hq := hQD j hjq
      have hji : j ≠ i := by intro e; rw [e, h] at hq; exact WPhase.noConfusion hq
      rw [Function.update_noteq hji]; exact hq
    · intro j c v hj
      dsimp only at hj ⊢
      by_cases hjx : j = i
      · subst hjx; rw [Function.update_same] at hj
        exact absurd ((WPhase.done.injEq _ _ _ _ _ _).mp hj).2.1 (by simp)
      · rw [Function.update_noteq hjx] at hj
        exact hRQ j c v hj
    · intro _ _
      exact ⟨i, by dsimp only; rw [Function.update_same]; rfl⟩
    · intro _
      exact ⟨i, by dsimp only; rw [Function.update_same]; rfl⟩
  | coordSetFlag hg =>
    obtain ⟨hFree, hUniq, hQD, hND, hRQ, hFL, hFV⟩ := hi
    refine ⟨?_, hUniq, hQD, hND, hRQ, ?_, hFV⟩
    · intro hf2
      dsimp only at hf2
      exact Bool.noConfusion hf2
    · intro _ hx
      dsimp only at hx ⊢
      obtain ⟨j, hj⟩ := hx
      cases hg with
      | inl hall =>
          rw [hall j] at hj; exact Bool.noConfusion hj
      | inr hflag => exact hFL hflag ⟨j, hj⟩

theorem raceInv_reachable {n : Nat} {s : RaceState n} (hs : raceReachable s) : RaceInv s := by
  induction hs with
  | refl => exact raceInv_init n
  | tail _ hstep ih => exact raceInv_step ih hstep

theorem length_le_one_of_nodup_allEq {α : Type} (l : List α) (hn : l.Nodup)
    (he : ∀ a, a ∈ l → ∀ b, b ∈ l → a = b) : l.length ≤ 1 := by
  match l with
  | [] => simp
  | [a] => simp
  | a :: b :: t =>
      exfalso
      have hab : a ≠ b := by
        have := (List.nodup_cons.mp hn).1
        intro e; exact this (e ▸ List.mem_cons_self b t)
      exact hab (he a (List.mem_cons_self a _) b (List.mem_cons_of_mem a (List.mem_cons_self b t)))

/-- Status of one worker with respect to the shared concurrency limiter
`_browser_semaphore` (src/main.py lines 66-67, 901): still waiting on
`async with _browser_semaphore`, holding the slot, or finished (the slot,
if it was held, has been given back). -/
inductive SemStatus where
  | waiting
  | holding
  | finished
deriving DecidableEq

/-- Capacity `MAX_BROWSERS` of the limiter (src/main.py line 66). -/
def MAX_BROWSERS : Nat := 1

/-- Number of workers currently holding a limiter slot. -/
def holdersCount {k : Nat} (st : Fin k → SemStatus) : Nat :=
  (List.finRange k).countP (fun i => st i == SemStatus.holding)

/-- Interleaving semantics of the limiter (src/main.py lines 66-67, 901,
996-1006): `acquire` is granted only while fewer than `MAX_BROWSERS`
slots are out (the semaphore's acquire suspends otherwise); `finishRelease`
covers every way the guarded block can end — success, invalid result,
timeout, cancellation, unexpected exception — since the `async with`
scope releases the slot on each of them; `cancelAtAcquire` is a worker
cancelled while still waiting, which never held a slot. -/
inductive SemStep {k : Nat} : (Fin k → SemStatus) → (Fin k → SemStatus) → Prop where
  | acquire (st : Fin k → SemStatus) (i : Fin k) (h : st i = .waiting)
      (hcap : holdersCount st < MAX_BROWSERS) :
      SemStep st (Function.update st i .holding)
  | finishRelease (st : Fin k → SemStatus) (i : Fin k) (h : st i = .holding) :
      SemStep st (Function.update st i .finished)
  | cancelAtAcquire (st : Fin k → SemStatus) (i : Fin k) (h : st i = .waiting) :
      SemStep st (Function.update st i .finished)

/-- All workers of a round start out waiting for a slot. -/
def initSem (k : Nat) : Fin k → SemStatus := fun _ => .waiting

theorem countP_update_add {k : Nat} (p : SemStatus → Bool) (f : Fin k → SemStatus)
    (j : Fin k) (a : SemStatus) :
    ∀ l : List (Fin k), l.Nodup → j ∈ l →
      l.countP (fun i => p (Function.update f j a i)) + (if p (f j) then 1 else 0)
        = l.countP (fun i => p (f i)) + (if p a then 1 else 0) := by
  intro l
  induction l with
  | nil => intro _ hj; exact absurd hj (List.not_mem_nil j)
  | cons x t ih =>
      intro hn hj
      obtain ⟨hxt, hnt⟩ := List.nodup_cons.mp hn
      rw [List.countP_cons, List.countP_cons]
      by_cases hx : x = j
      · subst hx
        have ht : t.countP (fun i => p (Function.update f x a i))
            = t.countP (fun i => p (f i)) := by
          apply List.countP_congr
          intro i hi
          have : i ≠ x := fun e => hxt (e ▸ hi)
          rw [Function.update_noteq this]
        rw [ht, Function.update_same]
        omega
      · have hjt : j ∈ t := by
          cases List.mem_cons.mp hj with
          | inl he => exact absurd he.symm hx
          | inr hm => exact hm
        have := ih hnt hjt
        rw [Function.update_noteq hx]
        omega

theorem holdersCount_update {k : Nat} (f : Fin k → SemStatus) (j : Fin k) (a : SemStatus) :
    holdersCount (Function.update f j a) + (if f j == SemStatus.holding then 1 else 0)
      = holdersCount f + (if a == SemStatus.holding then 1 else 0) := by
  exact countP_update_add (fun x => x == SemStatus.holding) f j a
    (List.finRange k) (List.nodup_finRange k) (List.mem_finRange j)

theorem sem_step_capacity {k : Nat} {st st' : Fin k → SemStatus}
    (h : SemStep st st') (hcap : holdersCount st ≤ MAX_BROWSERS) :
    holdersCount st' ≤ MAX_BROWSERS := by
  cases h with
  | acquire i hw hlt =>
      have := holdersCount_update st i SemStatus.holding
      rw [hw] at this
      simp at this
      omega
  | finishRelease i hh =>
      have := holdersCount_update st i SemStatus.finished
      rw [hh] at this
      simp at this
      omega
  | cancelAtAcquire i hw =>
      have := holdersCount_update st i SemStatus.finished
      rw [hw] at this
      simp at this
      omega

/-- Environment of one `_step` callback invocation (src/main.py lines
827-896): whether a `CancelledError` is raised at one of the awaits inside
the inner `try` (re-raised by the `except asyncio.CancelledError` arm),
whether `agent.browser_session` and the current page are available,
whether a non-fatal exception fires before the block handling (swallowed
by the `except Exception` arm, leaving the counters unchanged), whether
`_is_blocked` reports a bot wall, and whether the wall persists at the
fourth consecutive blocked step. -/
structure StepEnv where
  innerCancelled : Bool
  bsPresent : Bool
  pagePresent : Bool
  swallowedEarlyError : Bool
  blockedNow : Bool
  blockedStillAtFour : Bool

/-- How one `_step` invocation ends. -/
inductive StepOutcome where
  | raisedCancelled
  | raisedPersistentBlock
  | ok (steps blockedCount : Nat)
deriving DecidableEq

/-- Per-step callback `_step` of `_run_worker` (src/main.py lines
827-896), as a function of the shared cancellation flag, the `steps` and
`blocked_count` cells, and the environment: the first statement checks the
flag and raises `CancelledError` at once; then the step counter is
incremented; inside the `try`, a missing session or page returns early, a
bot wall bumps `blocked_count` (raising `RuntimeError` when it persists at
the fourth consecutive hit, lines 869-873) and an unblocked step resets it
to zero.  Captcha solving, pacing and screenshots are effect-free for this
state and are not modelled; generic exceptions are swallowed (line
895-896). -/
def _step (cancelSet : Bool) (steps blockedCount : Nat) (env : StepEnv) : StepOutcome :=
  if cancelSet then .raisedCancelled
  else
    let steps' := steps + 1
    if env.innerCancelled then .raisedCancelled
    else if !env.bsPresent then .ok steps' blockedCount
    else if !env.pagePresent then .ok steps' blockedCount
    else if env.swallowedEarlyError then .ok steps' blockedCount
    else if env.blockedNow then
      let bc := blockedCount + 1
      if 4 ≤ bc ∧ env.blockedStillAtFour then .raisedPersistentBlock
      else .ok steps' bc
    else .ok steps' 0

/-- One egress descriptor (host, port, credential pair) as held in
`_PROXY_POOL` (src/main.py lines 84-89). -/
structure EgressDescriptor where
  host : String
  port : String
  user : String
  password : String

/-- Default `PROXY_USER` (src/main.py line 51). -/
def PROXY_USER : String := "brd-customer-hl_ea313532-zone-demo"

/-- Default `PROXY_PASS` (src/main.py line 52). -/
def PROXY_PASS : String := "jzbld1hf9ygu"

/-- The single UAE exit node of the pool (src/main.py lines 84-89). -/
def proxyAE : EgressDescriptor :=
  ⟨"brd.superproxy.io", "33335", PROXY_USER ++ "-country-ae", PROXY_PASS⟩

/-- `_PROXY_POOL` (src/main.py lines 84-89): a one-element list holding
the UAE exit node.  `_refresh_proxy_pool` (lines 91-92) only prints and
never mutates it. -/
def _PROXY_POOL : List EgressDescriptor := [proxyAE]

/-- `RACE_MAX_ROUNDS` (src/main.py line 64). -/
def RACE_MAX_ROUNDS : Nat := 5

/-- The egress slice handed to `_race` in round `rnd` of `run_agent`
(src/main.py lines 1054-1057): `pool = list(_PROXY_POOL)` and then
`[pool[0]]` on every iteration — the expression does not depend on the
round index. -/
def roundSlice (rnd : Nat) : List EgressDescriptor :=
  [_PROXY_POOL.get ⟨0, by decide⟩]

/-- The winner tuple `(wid, cleaned, steps[0], video_url)` a worker puts
on the queue (src/main.py line 992). -/
structure WinnerTuple where
  wid : String
  data : PyVal
  steps : Nat
  video_url : Option String

/-- Response model `AgentResponse` (src/main.py lines 536-540);
`extracted_data : Any = None` is modelled with `PyVal.vnone` as the null
payload. -/
structure AgentResponse where
  video_url : Option String
  steps_taken : Nat
  extracted_data : PyVal
  worker_id : Option String

/-- Outcome of one round of `_race` (src/main.py lines 1011-1040) given
the results of its workers in completion order: each worker either
escaped with an exception (`Except.error`, swallowed by
`asyncio.gather(..., return_exceptions=True)` at line 1039), finished
without enqueueing (`Except.ok none`), or enqueued a winner tuple
(`Except.ok (some w)`); the round returns the first enqueued tuple, if
any. -/
def raceOutcome (rs : List (Except Unit (Option WinnerTuple))) : Option WinnerTuple :=
  rs.findSome? (fun r =>
    match r with
    | .ok (some w) => some w
    | _ => none)

/-- The round loop of `run_agent` (src/main.py lines 1055-1065) over a
list of round indices: the first round with a winner returns that
winner's response at once; exhausting the list yields the empty terminal
response `AgentResponse(video_url=None, steps_taken=0,
extracted_data=None, worker_id=None)` of line 1065. -/
def roundLoop (rw : Nat → List (Except Unit (Option WinnerTuple))) :
    List Nat → AgentResponse
  | [] => ⟨none, 0, .vnone, none⟩
  | r :: rest =>
      match raceOutcome (rw r) with
      | some w => ⟨w.video_url, w.steps, w.data, some w.wid⟩
      | none => roundLoop rw rest

/-- `run_agent` (src/main.py lines 1045-1065), parameterised by what the
workers of each round do (the engine, network and validator outcomes are
environment choices): rounds `1 .. RACE_MAX_ROUNDS` are tried in order,
exactly as `for rnd in range(1, RACE_MAX_ROUNDS + 1)`. -/
def run_agent (rw : Nat → List (Except Unit (Option WinnerTuple))) : AgentResponse :=
  roundLoop rw (List.range' 1 RACE_MAX_ROUNDS)

def c1w0 : RaceState 2 := initRace 2
def c1w1 : RaceState 2 := { c1w0 with phase := Function.update c1w0.phase 0 .preCheck }
def c1w2 : RaceState 2 := { c1w1 with phase := Function.update c1w1.phase 1 .preCheck }
def c1w3 : RaceState 2 := { c1w2 with phase := Function.update c1w2.phase 0 .awaitingLock }
def c1w4 : RaceState 2 := { c1w3 with phase := Function.update c1w3.phase 1 .awaitingLock }
def c1w5 : RaceState 2 :=
  { c1w4 with phase := Function.update c1w4.phase 0 .inLock, lockHolder := some 0 }
def c1w6 : RaceState 2 :=
  { c1w5 with phase := Function.update c1w5.phase 0 .enqueuing,
              lockHolder := none, flag := true }
def c1w7 : RaceState 2 :=
  { c1w6 with phase := Function.update c1w6.phase 0 (.done true true true),
              queue := c1w6.queue ++ [0] }
def c1w8 : RaceState 2 :=
  { c1w7 with phase := Function.update c1w7.phase 1 .inLock, lockHolder := some 1 }
def c1w9 : RaceState 2 :=
  { c1w8 with phase := Function.update c1w8.phase 1 (.done false false true),
              lockHolder := none }

theorem c1_reach6 : Relation.ReflTransGen (RaceStep (n := 2)) c1w0 c1w6 := by
  have t1 : Relation.ReflTransGen (RaceStep (n := 2)) c1w0 c1w1 :=
    Relation.ReflTransGen.single (RaceStep.finishValid c1w0 0 (by decide))
  have t2 := t1.tail (RaceStep.finishValid c1w1 1 (by decide))
  have t3 := t2.tail (RaceStep.preCheckPass c1w2 0 (by decide) (by decide))
  have t4 := t3.tail (RaceStep.preCheckPass c1w3 1 (by decide) (by decide))
  have t5 := t4.tail (RaceStep.acquireLock c1w4 0 (by decide) (by decide))
  exact t5.tail (RaceStep.claimWin c1w5 0 (by decide) (by decide) (by decide))

theorem c1_reach : raceReachable c1w9 := by
  have t7 := c1_reach6.tail (RaceStep.enqueueOutcome c1w6 0 (by decide))
  have t8 := t7.tail (RaceStep.acquireLock c1w7 1 (by decide) (by decide))
  exact t8.tail (RaceStep.recheckFail c1w8 1 (by decide) (by decide) (by decide))

def c1x7 : RaceState 2 :=
  { c1w6 with phase := Function.update c1w6.phase 0 (.done true false true) }
def c1x8 : RaceState 2 :=
  { c1x7 with phase := Function.update c1x7.phase 1 .inLock, lockHolder := some 1 }
def c1x9 : RaceState 2 :=
  { c1x8 with phase := Function.update c1x8.phase 1 (.done false false true),
              lockHolder := none }

theorem c1x_reach : raceReachable c1x9 := by
  have t7 := c1_reach6.tail (RaceStep.enqueueFail c1w6 0 (by decide))
  have t8 := t7.tail (RaceStep.acquireLock c1x7 1 (by decide) (by decide))
  exact t8.tail (RaceStep.recheckFail c1x8 1 (by decide) (by decide) (by decide))

/-- Counterexample for C1 as stated: a reachable two-worker schedule in
which both workers validate, worker 0 wins the claim (sets the flag under
the mutex) but then raises in the unguarded stretch between the flag set
(line 976) and the queue put (line 992) — the bare
`_dump_json_screenshots` call at line 980 raises on conversation JSON of
an unexpected shape, and `_ensure_frames`' fallback write is also bare —
and that exception is caught at line 1000; worker 1 then fails the
in-lock re-check.  The round terminates with validator-accepted workers
yet zero WorkerOutcomes, so "exactly one outcome is produced" fails. -/
theorem claimed_worker_can_fail_before_enqueue :
    raceReachable c1x9 ∧ (∀ i, isDonePhase (c1x9.phase i) = true) ∧
      (∃ i, isValidatedDone (c1x9.phase i) = true) ∧ c1x9.queue.length = 0 :=
  ⟨c1x_reach, by decide, by decide, rfl⟩

/-- C1 (amended): the winner-claim mutex with its in-lock flag re-check
guarantees in every reachable state of a round that at most one
WorkerOutcome is ever enqueued and that claim-winners are pairwise equal
(no two workers both pass the claim step even if they validate in the
same scheduling tick); exactly one outcome is enqueued in every terminal
state in which some worker had a validator-accepted payload, provided no
claimed worker failed in the unguarded stretch between setting the flag
and enqueueing its outcome. -/
theorem race_at_most_one_outcome {n : Nat} (s : RaceState n) (hs : raceReachable s) :
    s.queue.length ≤ 1 ∧
      (∀ i j, isWinner (s.phase i) = true → isWinner (s.phase j) = true → i = j) ∧
      ((∀ i, isDonePhase (s.phase i) = true) →
        (∃ i, isValidatedDone (s.phase i) = true) →
        (∀ i, postClaimFailed (s.phase i) = false) →
        s.queue.length = 1) := by
  have hi := raceInv_reachable hs
  have hle : s.queue.length ≤ 1 := by
    apply length_le_one_of_nodup_allEq _ hi.queueNodup
    intro a ha b hb
    exact hi.uniqueWin a b (by rw [hi.queueDone a ha]; rfl)
      (by rw [hi.queueDone b hb]; rfl)
  refine ⟨hle, hi.uniqueWin, ?_⟩
  intro hterm hex hnofail
  obtain ⟨i, hv⟩ := hex
  have hq : ∃ j, j ∈ s.queue := by
    cases hphase : s.phase i with
    | working => rw [hphase] at hv; exact Bool.noConfusion hv
    | preCheck => rw [hphase] at hv; exact Bool.noConfusion hv
    | awaitingLock => rw [hphase] at hv; exact Bool.noConfusion hv
    | inLock => rw [hphase] at hv; exact Bool.noConfusion hv
    | enqueuing =>
        have := hterm i
        rw [hphase] at this; exact Bool.noConfusion this
    | done c r v =>
        have hvt : v = true := by rw [hphase] at hv; exact hv
        cases r with
        | true => exact ⟨i, (hi.repInQueue i c v (by rw [hphase])).2.2⟩
        | false =>
            cases c with
            | true =>
                have := hnofail i
                rw [hphase] at this
                simp [postClaimFailed] at this
            | false =>
                obtain ⟨j, hj⟩ := hi.failVal ⟨i, by rw [hphase, hvt]⟩
                cases hjp : s.phase j with
                | working => rw [hjp] at hj; exact Bool.noConfusion hj
                | preCheck => rw [hjp] at hj; exact Bool.noConfusion hj
                | awaitingLock => rw [hjp] at hj; exact Bool.noConfusion hj
                | inLock => rw [hjp] at hj; exact Bool.noConfusion hj
                | enqueuing =>
                    have := hterm j
                    rw [hjp] at this; exact Bool.noConfusion this
                | done c2 r2 v2 =>
                    have hc2 : c2 = true := by
                      rw [hjp, isWinner_done_iff] at hj; exact hj
                    cases r2 with
                    | true => exact ⟨j, (hi.repInQueue j c2 v2 (by rw [hjp])).2.2⟩
                    | false =>
                        have := hnofail j
                        rw [hjp, hc2] at this
                        simp [postClaimFailed] at this
  obtain ⟨j, hjq⟩ := hq
  have hpos : 0 < s.queue.length := List.length_pos_of_mem hjq
  omega

/-- Witness for C1 (amended): the schedule in which worker 0 claims and
successfully enqueues while worker 1 acquires the lock afterwards and
fails the in-lock re-check ends with exactly one queued outcome and no
post-claim failure. -/
theorem race_at_most_one_outcome_witness : c1w9.queue.length = 1 :=
  (race_at_most_one_outcome c1w9 c1_reach).2.2 (by decide) (by decide) (by decide)

/-- C2: the limiter slot acquired by a worker is released on every exit
path of the guarded block (success, invalid result, timeout,
cancellation, unexpected exception), and in every reachable interleaving
of any number of workers the count of simultaneously held slots never
exceeds the capacity MAX_BROWSERS. -/
theorem limiter_safety :
    (∀ p : WorkerPath, (runWorkerEffects p).slotAcquired = true →
        (runWorkerEffects p).slotReleased = true)
    ∧ (∀ (k : Nat) (st : Fin k → SemStatus),
        Relation.ReflTransGen SemStep (initSem k) st →
          holdersCount st ≤ MAX_BROWSERS) := by
  constructor
  · intro p hp
    cases p with
    | setupFailure => exact Bool.noConfusion hp
    | acquireCancelled => exact Bool.noConfusion hp
    | body o => rfl
  · intro k st h
    induction h with
    | refl =>
        have hz : holdersCount (initSem k) = 0 := by
          rw [holdersCount, List.countP_eq_zero]
          intro a _
          simp [initSem]
        rw [hz]; exact Nat.zero_le _
    | tail _ hbc ih => exact sem_step_capacity hbc ih

def c2st : Fin 2 → SemStatus := Function.update (initSem 2) 0 .holding

/-- Witness for C2: a timed-out worker's effects show the slot released,
and the state in which one of two workers holds the single slot respects
the capacity bound. -/
theorem limiter_safety_witness :
    (runWorkerEffects (.body .timedOut)).slotReleased = true ∧
      holdersCount c2st ≤ MAX_BROWSERS :=
  ⟨limiter_safety.1 (.body .timedOut) rfl,
    limiter_safety.2 2 c2st
      (Relation.ReflTransGen.single (SemStep.acquire (initSem 2) 0 rfl (by decide)))⟩

theorem raceOutcome_eq_none (rs : List (Except Unit (Option WinnerTuple)))
    (h : ∀ w, w ∈ rs → ∀ x, w ≠ .ok (some x)) : raceOutcome rs = none := by
  induction rs with
  | nil => rfl
  | cons a t ih =>
      have ht : raceOutcome t = none :=
        ih (fun w hw x => h w (List.mem_cons_of_mem a hw) x)
      cases a with
      | error u =>
          show raceOutcome (Except.error u :: t) = none
          unfold raceOutcome
          rw [List.findSome?_cons]
          exact ht
      | ok o =>
          cases o with
          | none =>
              show raceOutcome (Except.ok none :: t) = none
              unfold raceOutcome
              rw [List.findSome?_cons]
              exact ht
          | some x =>
              exact absurd rfl (h (Except.ok (some x)) (List.mem_cons_self _ _) x)

theorem roundLoop_empty (rw : Nat → List (Except Unit (Option WinnerTuple))) :
    ∀ l : List Nat, (∀ r, r ∈ l → raceOutcome (rw r) = none) →
      roundLoop rw l = ⟨none, 0, .vnone, none⟩ := by
  intro l
  induction l with
  | nil => intro _; rfl
  | cons r rest ih =>
      intro h
      simp only [roundLoop, h r (List.mem_cons_self r rest)]
      exact ih (fun x hx => h x (List.mem_cons_of_mem r hx))

/-- C3: when no round from 1 to RACE_MAX_ROUNDS produces a winner — every
worker of every round either escapes with an exception (swallowed by the
coordinator) or reports no outcome — `run_agent` returns, rather than
raises, the well-formed empty result with zero steps, null payload and
null artifact reference. -/
theorem run_agent_exhausted_empty
    (rw : Nat → List (Except Unit (Option WinnerTuple)))
    (h : ∀ r, 1 ≤ r → r ≤ RACE_MAX_ROUNDS →
      ∀ w, w ∈ rw r → ∀ x, w ≠ .ok (some x)) :
    run_agent rw = ⟨none, 0, .vnone, none⟩ := by
  unfold run_agent
  apply roundLoop_empty
  intro r hr
  have hb : 1 ≤ r ∧ r ≤ RACE_MAX_ROUNDS := by
    have he : List.range' 1 RACE_MAX_ROUNDS = [1, 2, 3, 4, 5] := rfl
    rw [he] at hr
    simp only [List.mem_cons, List.not_mem_nil, or_false] at hr
    rcases hr with rfl | rfl | rfl | rfl | rfl <;> exact ⟨by decide, by decide⟩
  exact raceOutcome_eq_none (rw r) (h r hb.1 hb.2)

def c3rw : Nat → List (Except Unit (Option WinnerTuple)) :=
  fun _ => [Except.error (), Except.ok none]

/-- Witness for C3: five rounds in which one worker crashes and the other
reports nothing yield the empty terminal response. -/
theorem run_agent_exhausted_empty_witness :
    run_agent c3rw = ⟨none, 0, .vnone, none⟩ :=
  run_agent_exhausted_empty c3rw (by
    intro r _ _ w hw x
    simp only [c3rw, List.mem_cons, List.not_mem_nil, or_false] at hw
    rcases hw with rfl | rfl <;> simp)

/-- C5: the shared cancellation flag is monotone within a round — once
set, no later step of any interleaving unsets it — and the per-step
callback checkpoint, invoked with the flag set, raises CancelledError
immediately whatever the counters and environment. -/
theorem cancel_flag_monotone :
    (∀ (n : Nat) (s t : RaceState n), Relation.ReflTransGen RaceStep s t →
        s.flag = true → t.flag = true)
    ∧ (∀ (steps blockedCount : Nat) (env : StepEnv),
        _step true steps blockedCount env = .raisedCancelled) := by
  constructor
  · intro n s t h hf
    induction h with
    | refl => exact hf
    | tail _ hbc ih =>
        cases hbc with
        | finishNoClaim i h2 => exact ih
        | finishValid i h2 => exact ih
        | preCheckPass i h2 hf2 => exact ih
        | noClaimFlagged i h2 hf2 => exact ih
        | acquireLock i h2 hl => exact ih
        | recheckFail i h2 hl hf2 => exact ih
        | claimWin i h2 hl hf2 => rfl
        | enqueueOutcome i h2 => exact ih
        | enqueueFail i h2 => exact ih
        | coordSetFlag hg => rfl
  · intro steps blockedCount env
    rfl

def c5s : RaceState 1 := ⟨fun _ => .working, true, none, []⟩
def c5t : RaceState 1 := { c5s with flag := true }
def c5env : StepEnv := ⟨false, true, true, false, false, false⟩

/-- Witness for C5: after a coordinator flag confirmation on a state with
the flag already set the flag is still set, and a concrete callback call
with the flag set raises CancelledError. -/
theorem cancel_flag_monotone_witness :
    c5t.flag = true ∧ _step true 3 0 c5env = .raisedCancelled :=
  ⟨cancel_flag_monotone.1 1 c5s c5t
      (Relation.ReflTransGen.single (RaceStep.coordSetFlag c5s (Or.inr rfl))) rfl,
    cancel_flag_monotone.2 3 0 c5env⟩

/-- C4 (amended): for every string payload whose lowercasing contains a
known failure-signature substring, the validator rejects it regardless of
the payload's length; the substring check applies only to string
payloads. -/
theorem validator_rejects_bad_string (s : String)
    (h : badSubstrings.any (fun k => strContains (pyLower s) k) = true) :
    _is_valid (.vstr s) = false := by
  by_cases he : s = ""
  · subst he; rfl
  · have he2 : isEmptyLike (.vstr s) = false := by
      show (s == "") = false
      rw [beq_eq_false_iff_ne]
      exact he
    simp [_is_valid, he2, h]

/-- Witness for C4 (amended): the literal denylist phrase itself, thirteen
characters long, is rejected. -/
theorem validator_rejects_bad_string_witness :
    badSubstrings.any (fun k => strContains (pyLower "access denied") k) = true ∧
      _is_valid (.vstr "access denied") = false :=
  ⟨by decide, validator_rejects_bad_string "access denied" (by decide)⟩

def c4cx : PyVal := .vdict [("items", .vlist [.vdict [("title", .vstr "access denied")]])]

/-- Counterexample for C4 as stated: a dict payload containing the
denylisted phrase "access denied" inside a nested string is nevertheless
accepted by the validator — the substring check of `_is_valid` runs only
on string payloads, so rejection does not hold for payloads of every
type. -/
theorem validator_accepts_bad_dict :
    containsBadDeep c4cx = true ∧ _is_valid c4cx = true := by
  exact ⟨by decide, by decide⟩

/-- Counterexample for C6 as stated: a worker cancelled while still
waiting on the limiter acquisition ends in the CANCELLED terminal state
with its working directory created but never removed — the `finally`
cleanup lives inside the semaphore scope and is skipped when the
cancellation lands on the acquisition itself. -/
theorem worker_cancelled_at_acquire_leaks_folder :
    (runWorkerEffects .acquireCancelled).enqueued = false ∧
      (runWorkerEffects .acquireCancelled).folderCreated = true ∧
      (runWorkerEffects .acquireCancelled).folderRemoved = false :=
  ⟨rfl, rfl, rfl⟩

/-- C6 (amended): a worker enqueues an outcome exactly on the claimed
path — in particular TIMED_OUT, CANCELLED and ERRORED never report — and
the working directory is removed in every terminal state reached through
the guarded block (after the limiter slot was acquired); a worker that
fails in setup or is cancelled while waiting for the slot leaks the
directory. -/
theorem worker_no_outcome_and_cleanup :
    (∀ p : WorkerPath, (runWorkerEffects p).enqueued = true ↔ p = .body .claimed)
    ∧ (∀ o : BodyOutcome, (runWorkerEffects (.body o)).folderRemoved = true) := by
  constructor
  · intro p
    cases p with
    | setupFailure => simp [runWorkerEffects]
    | acquireCancelled => simp [runWorkerEffects]
    | body o => cases o <;> simp [runWorkerEffects]
  · intro o; rfl

/-- Counterexample for C7 as stated: all five rounds of `run_agent` hand
`_race` the identical single-descriptor slice — the selection expression
`[pool[0]]` ignores the round index and the pool holds one element, so
repeated rounds are guaranteed to reuse the same egress point and no
rotation occurs. -/
theorem rounds_use_identical_slice :
    roundSlice 1 = roundSlice 2 ∧ roundSlice 2 = roundSlice 3 ∧
      roundSlice 3 = roundSlice 4 ∧ roundSlice 4 = roundSlice 5 ∧
      _PROXY_POOL.length = 1 :=
  ⟨rfl, rfl, rfl, rfl, rfl⟩

/-- C7 (amended): every round selects the constant slice consisting of the
pool's single UAE descriptor; the selection is independent of the round
index. -/
theorem roundSlice_constant : ∀ rnd : Nat, roundSlice rnd = [proxyAE] :=
  fun _ => rfl

theorem vdict_valid_of_nonempty_list_value (d : List (String × PyVal))
    (h : ∃ kv, kv ∈ d ∧ ∃ v vs, kv.2 = PyVal.vlist (v :: vs)) :
    _is_valid (.vdict d) = true := by
  obtain ⟨kv, hmem, v, vs, hkv⟩ := h
  have hne : d ≠ [] := List.ne_nil_of_mem hmem
  have he : isEmptyLike (.vdict d) = false := by
    show d.isEmpty = false
    match d, hne with
    | x :: t, _ => rfl
  have hq : d.any (fun kv =>
      match kv.2 with
      | .vlist (_ :: _) => true
      | _ => false) = true := by
    rw [List.any_eq_true]
    exact ⟨kv, hmem, by rw [hkv]⟩
  cases hp : d.any (fun kv =>
      match kv.2 with
      | .vlist (x :: _) => match x with | .vdict _ => true | _ => false
      | _ => false) <;> simp [_is_valid, he, hp, hq]

/-- C8: a keyed-mapping payload is accepted whenever at least one value is
a non-empty list, and in particular it is accepted when such a value's
first element is a dict sharing at least two of the expected field
names. -/
theorem dict_validator_accepts (d : List (String × PyVal)) :
    ((∃ kv, kv ∈ d ∧ ∃ v vs, kv.2 = PyVal.vlist (v :: vs)) →
        _is_valid (.vdict d) = true)
    ∧ (∀ kv, kv ∈ d → ∀ x xs, kv.2 = PyVal.vlist (.vdict x :: xs) →
        2 ≤ sharedFieldCount x → _is_valid (.vdict d) = true) := by
  refine ⟨vdict_valid_of_nonempty_list_value d, ?_⟩
  intro kv hmem x xs hkv _
  exact vdict_valid_of_nonempty_list_value d ⟨kv, hmem, _, _, hkv⟩

def c8row : List (String × PyVal) :=
  [("tender_title", .vstr "supply of equipment"), ("notice_link", .vnone)]

def c8d : List (String × PyVal) := [("data", .vlist [.vdict c8row])]

/-- Witness for C8: a mapping whose "data" value is a one-element list of
a dict sharing the two expected field names tender_title and notice_link
is accepted. -/
theorem dict_validator_accepts_witness : _is_valid (.vdict c8d) = true :=
  (dict_validator_accepts c8d).2 ("data", .vlist [.vdict c8row])
    (List.mem_singleton.mpr rfl) c8row [] rfl (by decide)

def c9hist : AgentHistory := ⟨some "Agent error: boom", [], []⟩

def c9run : ExtractionRun := ⟨c9hist, true, some [.vdict [("tender_title", .vstr "t")]]⟩

/-- Counterexample for C9 as stated: a history whose very first pass (the
explicit done signal) yields the non-empty text "Agent error: boom" still
has the last-resort direct page scrape attempted, because the scrape is
gated on the cleaned result failing validation, not on the earlier passes
having produced no content. -/
theorem scrape_runs_after_nonempty_pass :
    extractPass1 c9hist = "Agent error: boom" ∧
      extractText c9hist = "Agent error: boom" ∧
      (extractionPipeline c9run).2 = true :=
  ⟨rfl, rfl, by decide⟩

/-- C9 (amended): among the four history-extraction passes the first pass
yielding non-empty content wins and later history passes are not
consulted; the final direct page-scrape pass, however, is attempted
exactly when the cleaned result fails validation and a page reference
exists — even if an earlier pass produced non-empty content. -/
theorem extraction_pass_order :
    (∀ h : AgentHistory, extractText h =
        firstNonEmpty [extractPass1 h, extractPass2 h, extractPass3 h, extractPass4 h])
    ∧ (∀ e : ExtractionRun, (extractionPipeline e).2 = true ↔
        (_is_valid (_clean_result (extractText e.history)) = false ∧
          e.pagePresent = true)) := by
  constructor
  · intro h
    simp only [extractText]
    by_cases h1 : extractPass1 h = "" <;>
      by_cases h2 : extractPass2 h = "" <;>
        by_cases h3 : extractPass3 h = "" <;>
          by_cases h4 : extractPass4 h = "" <;>
            simp [firstNonEmpty, h1, h2, h3, h4]
  · intro e
    by_cases hc : _is_valid (_clean_result (extractText e.history)) = false ∧
        e.pagePresent = true
    · have hc' : ¬ (_is_valid (_clean_result (extractText e.history)) = true) ∧
          e.pagePresent = true := by
        refine ⟨?_, hc.2⟩
        rw [hc.1]; exact Bool.false_ne_true
      simp only [extractionPipeline, if_pos hc']
      cases e.jsData with
      | none => simpa using hc
      | some rows => simpa using hc
    · have hc' : ¬ (¬ (_is_valid (_clean_result (extractText e.history)) = true) ∧
          e.pagePresent = true) := by
        intro hx
        exact hc ⟨Bool.not_eq_true _ ▸ hx.1, hx.2⟩
      simp only [extractionPipeline, if_neg hc']
      constructor
      · intro hx; exact Bool.noConfusion hx
      · intro hx; exact absurd hx hc

/-- C10: the validator's empty/null rejection covers exactly None, the
empty string, the empty list and the empty dict; any other falsy scalar —
the integer 0, the float 0.0, the boolean False — is accepted. -/
theorem empty_rejection_exact :
    _is_valid .vnone = false ∧ _is_valid (.vstr "") = false ∧
    _is_valid (.vlist []) = false ∧ _is_valid (.vdict []) = false ∧
    _is_valid (.vint 0) = true ∧ _is_valid (.vfloat 0) = true ∧
    _is_valid (.vbool false) = true ∧
    (∀ v : PyVal, isEmptyLike v = true ↔
      (v = .vnone ∨ v = .vstr "" ∨ v = .vlist [] ∨ v = .vdict [])) := by
  refine ⟨rfl, rfl, rfl, rfl, rfl, rfl, rfl, ?_⟩
  intro v
  cases v with
  | vnone => simp [isEmptyLike]
  | vbool b => simp [isEmptyLike]
  | vint n => simp [isEmptyLike]
  | vfloat q => simp [isEmptyLike]
  | vstr s => simp [isEmptyLike]
  | vlist l => cases l <;> simp [isEmptyLike]
  | vdict d => cases d <;> simp [isEmptyLike]
